import Mathlib

set_option maxRecDepth 100000

/-
Verification development for the gls library (goroutine-local storage).

The source consists of two Go files:
  * context.go — ContextManager (scoped, shadowable key/value storage per
    goroutine id), the low-level Set/Get pair over the growable globalMaps
    array, extend, WrapWithGLS, and the Go propagation helper;
  * id_pool.go — idPool, a reusable-integer-id pool over a FIFO queue and a
    wrapping uint32 counter.

We give shallow embeddings of these, faithful to the source:
  * a pure single-task model of one ContextManager (section `Gls`): the
    manager state is the `values` map gid ↦ slot, a slot is a map key ↦
    value, and callbacks are deep-embedded programs so that nesting and
    panics inside `SetValues` can be reasoned about;
  * a model of the idPool with the uint32 counter arithmetic made explicit
    (mod 2^32) and ghost bookkeeping (live/issued ids) for trace invariants;
  * a model of the low-level globalMaps array (list of possibly-nil slots),
    extend, WrapWithGLS, Set and Get, including the Go-level failure modes
    (NotEnabled error, and panics: out-of-range index / nil-map write);
  * a heap-indexed model of the manager in which map objects are explicit
    references, used to track the aliasing behaviour of getValues/Go.
-/

namespace Gls

/-- A slot: one manager's key/value storage for one goroutine id
(Go `Values` / `context`, a `map[interface{}]interface{}`), modelled as a
partial function from keys to values. -/
def Slot (K V : Type) := K → Option V

/-- The per-manager state: `ContextManager.values : map[uint32]Values`,
modelled as a partial function from goroutine ids to slots
(`none` = no entry for that gid). -/
def MState (K V : Type) := Nat → Option (Slot K V)

/-- Lookup in an association list of bindings; this is the lookup of a Go
map represented as a list of key/value pairs (first binding for a key
wins; Go maps have unique keys). -/
def lookupKV {K V : Type} [DecidableEq K] : List (K × V) → K → Option V
  | [], _ => none
  | p :: rest, k => if k = p.1 then some p.2 else lookupKV rest k

/-- The write loop of `SetValues`: `for key, new_val := range new_values
{ state[key] = new_val }`, as a pointwise description of the resulting
slot. -/
def applyBindings {K V : Type} [DecidableEq K] (B : List (K × V)) (st : Slot K V) :
    Slot K V :=
  fun k =>
    match lookupKV B k with
    | some v => some v
    | none => st k

/-- The deferred restore loop of `SetValues`: for every key of
`mutated_keys` (= the keys of `new_values`), restore the old value when
`mutated_vals` recorded one (`state[key] = val`) and delete the key
otherwise (`delete(state, key)`); keys outside the bindings are left as the
callback left them.  `st0` is the slot content before the write loop (the
source of `mutated_vals`), `stc` the content after the callback. -/
def restoreBindings {K V : Type} [DecidableEq K] (B : List (K × V)) (st0 stc : Slot K V) :
    Slot K V :=
  fun k => if (lookupKV B k).isSome then st0 k else stc k

/-- Point update of the manager state (`m.values[gid] = …` /
`delete(m.values, gid)`). -/
def update {K V : Type} (s : MState K V) (gid : Nat) (v : Option (Slot K V)) :
    MState K V :=
  fun g => if g = gid then v else s g

/-- `ContextManager.GetValue`: resolve the goroutine id (absent id ⇒
`(nil, false)`), look up the manager's slot for it (absent slot ⇒
`(nil, false)`), then look the key up in the slot. -/
def GetValue {K V : Type} (s : MState K V) (gid? : Option Nat) (k : K) :
    Option V × Bool :=
  match gid? with
  | none => (none, false)
  | some gid =>
    match s gid with
    | none => (none, false)
    | some st =>
      match st k with
      | some v => (some v, true)
      | none => (none, false)

/-- Deep-embedded single-task callbacks: everything a callback passed to
`SetValues` can do to this manager on its own goroutine.  `fail` models a
panic raised by the callback; `getCheck k e` models an assertion
`v, ok := m.GetValue(k); assert (v, ok) == (e, e ≠ nil)` that panics when
the observation differs. -/
inductive Prog (K V : Type) where
  | skip : Prog K V
  | fail : Prog K V
  | seq : Prog K V → Prog K V → Prog K V
  | setValues : List (K × V) → Prog K V → Prog K V
  | getCheck : K → Option V → Prog K V

/-- Result of running a program: the final manager state, whether a panic
is propagating, and how many times `EnsureGoroutineId` was entered (the
identity-acquisition count). -/
structure RunResult (K V : Type) where
  state : MState K V
  panicked : Bool
  ensures : Nat

/-- Interpreter for a single task with goroutine id `gid`, mirroring
`SetValues` from context.go line by line: empty bindings just invoke the
callback; otherwise, inside `EnsureGoroutineId`, fetch-or-create the slot
(recording `found`), record old values and write the new ones, run the
callback, and in a deferred block either delete the whole slot (when it
was created by this call) or restore exactly the bound keys — the deferred
block runs whether or not the callback panicked, and the panic keeps
propagating afterwards. -/
def run {K V : Type} [DecidableEq K] [DecidableEq V] (gid : Nat) :
    Prog K V → MState K V → RunResult K V
  | .skip, s => ⟨s, false, 0⟩
  | .fail, s => ⟨s, true, 0⟩
  | .getCheck k e, s =>
    if GetValue s (some gid) k = (e, e.isSome) then ⟨s, false, 0⟩ else ⟨s, true, 0⟩
  | .seq p q, s =>
    let r1 := run gid p s
    if r1.panicked then r1
    else
      let r2 := run gid q r1.state
      ⟨r2.state, r2.panicked, r1.ensures + r2.ensures⟩
  | .setValues B body, s =>
    if B.isEmpty then
      -- if len(new_values) == 0 { context_call(); return }
      run gid body s
    else
      match s gid with
      | some st0 =>
        -- state, found := m.values[gid]  (found)
        let st1 := applyBindings B st0
        let r := run gid body (update s gid (some st1))
        -- deferred restore: writes through the local `state` alias; when the
        -- slot is still registered this is the registered slot, when the
        -- callback detached it the write is invisible to the manager
        let s3 :=
          match r.state gid with
          | some stc => update r.state gid (some (restoreBindings B st0 stc))
          | none => r.state
        ⟨s3, r.panicked, r.ensures + 1⟩
      | none =>
        -- not found: state := make(Values); m.values[gid] = state
        let st1 := applyBindings B (fun _ => none)
        let r := run gid body (update s gid (some st1))
        -- deferred: if !found { delete(m.values, gid); return }
        ⟨update r.state gid none, r.panicked, r.ensures + 1⟩

theorem update_self {K V : Type} (s : MState K V) (gid : Nat)
    (v : Option (Slot K V)) (h : s gid = v) : update s gid v = s := by
  funext g
  unfold update
  by_cases hg : g = gid
  · subst hg; simp [h]
  · simp [hg]

theorem update_update {K V : Type} (s : MState K V) (gid : Nat)
    (v w : Option (Slot K V)) : update (update s gid v) gid w = update s gid w := by
  funext g
  unfold update
  by_cases hg : g = gid <;> simp [hg]

theorem update_at {K V : Type} (s : MState K V) (gid : Nat)
    (v : Option (Slot K V)) : update s gid v gid = v := by
  unfold update
  simp

theorem applyBindings_not_mem {K V : Type} [DecidableEq K] (B : List (K × V))
    (st : Slot K V) (k : K) (h : lookupKV B k = none) :
    applyBindings B st k = st k := by
  unfold applyBindings
  rw [h]

theorem restore_apply {K V : Type} [DecidableEq K] (B : List (K × V))
    (st0 : Slot K V) : restoreBindings B st0 (applyBindings B st0) = st0 := by
  funext k
  unfold restoreBindings applyBindings
  cases h : lookupKV B k <;> simp [h]

/-- The central restoration lemma: running any single-task callback —
nested `setValues`, observations, panics — leaves the manager state exactly
as it was.  This is the LIFO shadow/restore discipline of `SetValues`. -/
theorem run_state_eq {K V : Type} [DecidableEq K] [DecidableEq V] (gid : Nat) :
    ∀ (p : Prog K V) (s : MState K V), (run gid p s).state = s := by
  intro p
  induction p with
  | skip => intro s; rfl
  | fail => intro s; rfl
  | getCheck k e =>
    intro s
    unfold run
    by_cases h : GetValue s (some gid) k = (e, e.isSome) <;> simp [h]
  | seq p q ihp ihq =>
    intro s
    unfold run
    by_cases h : (run gid p s).panicked <;> simp [h, ihp, ihq]
  | setValues B body ih =>
    intro s
    unfold run
    by_cases hB : B.isEmpty
    · simp [hB, ih]
    · simp only [hB, if_false]
      cases hs : s gid with
      | some st0 =>
        simp only [ih, update_at, update_update, restore_apply]
        exact update_self s gid (some st0) hs
      | none =>
        simp only [ih, update_update]
        exact update_self s gid none hs

theorem applyBindings_mem {K V : Type} [DecidableEq K] (B : List (K × V))
    (st : Slot K V) (k : K) (v : V) (h : lookupKV B k = some v) :
    applyBindings B st k = some v := by
  unfold applyBindings
  rw [h]

theorem isEmpty_false_of_lookup {K V : Type} [DecidableEq K] (B : List (K × V))
    (k : K) (v : V) (h : lookupKV B k = some v) : B.isEmpty = false := by
  cases B with
  | nil => simp [lookupKV] at h
  | cons p rest => rfl


theorem GetValue_some_slot {K V : Type} (s : MState K V) (gid : Nat)
    (st : Slot K V) (k : K) (v : V) (hs : s gid = some st) (hk : st k = some v) :
    GetValue s (some gid) k = (some v, true) := by
  simp [GetValue, hs, hk]

theorem run_seq_def {K V : Type} [DecidableEq K] [DecidableEq V] (gid : Nat)
    (p q : Prog K V) (s : MState K V) :
    run gid (Prog.seq p q) s
      = if (run gid p s).panicked then run gid p s
        else ⟨(run gid q (run gid p s).state).state,
              (run gid q (run gid p s).state).panicked,
              (run gid p s).ensures + (run gid q (run gid p s).state).ensures⟩ := rfl

theorem run_getCheck_def {K V : Type} [DecidableEq K] [DecidableEq V] (gid : Nat)
    (k : K) (e : Option V) (s : MState K V) :
    run gid (Prog.getCheck k e) s
      = if GetValue s (some gid) k = (e, e.isSome) then ⟨s, false, 0⟩
        else ⟨s, true, 0⟩ := rfl

theorem run_setValues_def {K V : Type} [DecidableEq K] [DecidableEq V] (gid : Nat)
    (B : List (K × V)) (body : Prog K V) (s : MState K V) :
    run gid (Prog.setValues B body) s
      = if B.isEmpty then run gid body s
        else
          match s gid with
          | some st0 =>
            ⟨match (run gid body (update s gid (some (applyBindings B st0)))).state gid with
              | some stc =>
                update (run gid body (update s gid (some (applyBindings B st0)))).state gid
                  (some (restoreBindings B st0 stc))
              | none => (run gid body (update s gid (some (applyBindings B st0)))).state,
             (run gid body (update s gid (some (applyBindings B st0)))).panicked,
             (run gid body (update s gid (some (applyBindings B st0)))).ensures + 1⟩
          | none =>
            ⟨update (run gid body (update s gid (some (applyBindings B (fun _ => none))))).state gid none,
             (run gid body (update s gid (some (applyBindings B (fun _ => none))))).panicked,
             (run gid body (update s gid (some (applyBindings B (fun _ => none))))).ensures + 1⟩ := rfl

theorem run_getCheck_panicked {K V : Type} [DecidableEq K] [DecidableEq V]
    (gid : Nat) (k : K) (e : Option V) (s : MState K V)
    (h : GetValue s (some gid) k = (e, e.isSome)) :
    (run gid (Prog.getCheck k e) s).panicked = false := by
  rw [run_getCheck_def]
  simp [h]

theorem run_seq_panicked {K V : Type} [DecidableEq K] [DecidableEq V]
    (gid : Nat) (p q : Prog K V) (s : MState K V) :
    (run gid (Prog.seq p q) s).panicked
      = ((run gid p s).panicked || (run gid q s).panicked) := by
  rw [run_seq_def]
  by_cases h : (run gid p s).panicked <;> simp [h, run_state_eq]

theorem run_setValues_panicked_found {K V : Type} [DecidableEq K] [DecidableEq V]
    (gid : Nat) (B : List (K × V)) (body : Prog K V) (s : MState K V)
    (st0 : Slot K V) (hB : B.isEmpty = false) (hs : s gid = some st0) :
    (run gid (Prog.setValues B body) s).panicked
      = (run gid body (update s gid (some (applyBindings B st0)))).panicked := by
  rw [run_setValues_def]
  simp only [hB, Bool.false_eq_true, if_false, hs]

theorem run_setValues_panicked_notfound {K V : Type} [DecidableEq K] [DecidableEq V]
    (gid : Nat) (B : List (K × V)) (body : Prog K V) (s : MState K V)
    (hB : B.isEmpty = false) (hs : s gid = none) :
    (run gid (Prog.setValues B body) s).panicked
      = (run gid body (update s gid (some (applyBindings B (fun _ => none))))).panicked := by
  rw [run_setValues_def]
  simp only [hB, Bool.false_eq_true, if_false, hs]

/-- The observation chain used for the nesting/shadowing claim: check the
outer binding of `k` at entry, check it survives a nested scope over a
different key `k2`, check a nested rebinding of `k` to `b` shadows it, and
check the outer binding is back after the nested scope returns. -/
def shadowChain {K V : Type} (k k2 : K) (v b w : V) : Prog K V :=
  Prog.seq (Prog.getCheck k (some v))
    (Prog.seq (Prog.setValues [(k2, w)] (Prog.getCheck k (some v)))
      (Prog.seq (Prog.setValues [(k, b)] (Prog.getCheck k (some b)))
        (Prog.getCheck k (some v))))

theorem shadowChain_no_panic {K V : Type} [DecidableEq K] [DecidableEq V]
    (gid : Nat) (k k2 : K) (v b w : V) (s1 : MState K V) (st1 : Slot K V)
    (hs1 : s1 gid = some st1) (h1 : st1 k = some v) (hne : k ≠ k2) :
    (run gid (shadowChain k k2 v b w) s1).panicked = false := by
  have hGv : GetValue s1 (some gid) k = (some v, (some v).isSome) := by
    simpa using GetValue_some_slot s1 gid st1 k v hs1 h1
  have hA : (run gid (Prog.getCheck k (some v)) s1).panicked = false :=
    run_getCheck_panicked gid k (some v) s1 hGv
  -- nested scope over a different key k2 does not hide k
  have hk2 : lookupKV [(k2, w)] k = (none : Option V) := by
    simp [lookupKV, hne]
  have hN : (run gid (Prog.setValues [(k2, w)] (Prog.getCheck k (some v))) s1).panicked
      = false := by
    rw [run_setValues_panicked_found gid [(k2, w)] _ s1 st1 rfl hs1]
    refine run_getCheck_panicked gid k (some v) _ ?_
    have hslot : update s1 gid (some (applyBindings [(k2, w)] st1)) gid
        = some (applyBindings [(k2, w)] st1) := update_at _ _ _
    have hv : applyBindings [(k2, w)] st1 k = some v := by
      rw [applyBindings_not_mem _ _ _ hk2]; exact h1
    simpa using GetValue_some_slot _ gid (applyBindings [(k2, w)] st1) k v hslot hv
  -- nested rebinding of k shadows it with b
  have hk3 : lookupKV [(k, b)] k = some b := by
    simp [lookupKV]
  have hR : (run gid (Prog.setValues [(k, b)] (Prog.getCheck k (some b))) s1).panicked
      = false := by
    rw [run_setValues_panicked_found gid [(k, b)] _ s1 st1 rfl hs1]
    refine run_getCheck_panicked gid k (some b) _ ?_
    have hslot : update s1 gid (some (applyBindings [(k, b)] st1)) gid
        = some (applyBindings [(k, b)] st1) := update_at _ _ _
    have hv : applyBindings [(k, b)] st1 k = some b :=
      applyBindings_mem _ _ _ _ hk3
    simpa using GetValue_some_slot _ gid (applyBindings [(k, b)] st1) k b hslot hv
  unfold shadowChain
  rw [run_seq_panicked, run_seq_panicked, run_seq_panicked, hA, hN, hR]
  rfl

/-- Claim C9: `SetValues` with empty bindings just invokes the callback —
same final state, same panic behaviour, the same `EnsureGoroutineId` count
(so no identity acquisition by `SetValues` itself) and no manager-state
modification beyond what the callback itself does. -/
theorem setValues_empty_bindings_noop {K V : Type} [DecidableEq K] [DecidableEq V]
    (gid : Nat) (C : Prog K V) (s : MState K V) :
    run gid (Prog.setValues [] C) s = run gid C s := rfl

/-- Claim C1: after `SetValues B C` returns — normally or with a panic
propagating out of `C` — the manager observes, for every key of `B`,
exactly the value (or absence) it observed before the call; restoration is
LIFO per identity since `C` ranges over arbitrarily nested single-task
callbacks; and when the task had no slot in this manager before the call
the slot entry is deleted entirely. -/
theorem setValues_restores_prior_bindings {K V : Type} [DecidableEq K]
    [DecidableEq V] (gid : Nat) (B : List (K × V)) (C : Prog K V)
    (s : MState K V) :
    (∀ k, k ∈ B.map Prod.fst →
        GetValue ((run gid (Prog.setValues B C) s).state) (some gid) k
          = GetValue s (some gid) k)
    ∧ (s gid = none → (run gid (Prog.setValues B C) s).state gid = none) := by
  rw [run_state_eq]
  exact ⟨fun k _ => rfl, fun h => h⟩

theorem setValues_restores_prior_bindings_witness :
    (GetValue ((run 0 (Prog.setValues [(1, 2)] Prog.skip) (fun _ => none)).state)
        (some 0) 1
      = GetValue (fun _ => (none : Option (Slot Nat Nat))) (some 0) 1)
    ∧ (run 0 (Prog.setValues [(1, 2)] Prog.skip)
        (fun _ => (none : Option (Slot Nat Nat)))).state 0 = none :=
  ⟨(setValues_restores_prior_bindings 0 [(1, 2)] Prog.skip (fun _ => none)).1 1
      (by simp),
   (setValues_restores_prior_bindings 0 [(1, 2)] Prog.skip (fun _ => none)).2 rfl⟩

/-- Claim C2: while the callback of `SetValues B C` runs, every key of `B`
reads as its bound value — at entry, and inside a further-nested
`SetValues` over a different key — a nested `SetValues` rebinding the key
shadows it for the extent of the nested callback, and after the nested
call returns the outer binding is observed again undisturbed.  Stated as:
the corresponding observation chain of `GetValue` assertions never
panics. -/
theorem setValues_bindings_visible_and_shadowed {K V : Type} [DecidableEq K]
    [DecidableEq V] (gid : Nat) (B : List (K × V)) (s : MState K V)
    (k k2 : K) (v b w : V) (hk : lookupKV B k = some v) (hne : k ≠ k2) :
    (run gid (Prog.setValues B (shadowChain k k2 v b w)) s).panicked = false := by
  have hB : B.isEmpty = false := isEmpty_false_of_lookup B k v hk
  cases hs : s gid with
  | some st0 =>
    rw [run_setValues_panicked_found gid B _ s st0 hB hs]
    exact shadowChain_no_panic gid k k2 v b w _ (applyBindings B st0)
      (update_at _ _ _) (applyBindings_mem B st0 k v hk) hne
  | none =>
    rw [run_setValues_panicked_notfound gid B _ s hB hs]
    exact shadowChain_no_panic gid k k2 v b w _ (applyBindings B (fun _ => none))
      (update_at _ _ _) (applyBindings_mem B _ k v hk) hne

theorem setValues_bindings_visible_and_shadowed_witness :
    (run 0 (Prog.setValues [(1, 2)] (shadowChain 1 3 2 5 7))
      (fun _ => (none : Option (Slot Nat Nat)))).panicked = false :=
  setValues_bindings_visible_and_shadowed 0 [(1, 2)] (fun _ => none) 1 3 2 5 7
    (by simp [lookupKV]) (by decide)

end Gls

namespace IdPool

/-- 2^32: the modulus of Go's `uint32` arithmetic in id_pool.go. -/
def U32 : Nat := 4294967296

/-- `idPool`: the lock-free FIFO reuse queue (`golang.design/x/lockfree`
queue: enqueue at the back, dequeue from the front) and the `uint32`
counter `curID`, kept as a Nat that is always `< U32`. -/
structure PoolState where
  queue : List Nat
  curID : Nat
  deriving DecidableEq

def initPool : PoolState := ⟨[], 0⟩

/-- `newID`: `curID := atomic.AddUint32(&p.curID, 1); return curID - 1`,
with both the increment and the decrement performed modulo 2^32. -/
def newID (p : PoolState) : Nat × PoolState :=
  let newCur := (p.curID + 1) % U32
  ((newCur + U32 - 1) % U32, ⟨p.queue, newCur⟩)

/-- `Acquire`: a dequeued item if the reuse queue is non-empty, otherwise a
fresh counter value. -/
def Acquire (p : PoolState) : Nat × PoolState :=
  match p.queue with
  | i :: rest => (i, ⟨rest, p.curID⟩)
  | [] => newID p

/-- `Release`: enqueue the id on the reuse queue. -/
def Release (i : Nat) (p : PoolState) : PoolState := ⟨p.queue ++ [i], p.curID⟩

/-- A pool operation performed by some caller. -/
inductive POp where
  | acq : POp
  | rel : Nat → POp
  deriving DecidableEq

/-- Pool state plus ghost bookkeeping: the multiset of currently-held
(live) ids, every id ever returned by `Acquire`, and the number of
fresh (counter) issues performed so far. -/
structure PoolTrace where
  pool : PoolState
  live : List Nat
  issued : List Nat
  fresh : Nat
  deriving DecidableEq

def initTrace : PoolTrace := ⟨initPool, [], [], 0⟩

def stepPool (s : PoolTrace) : POp → PoolTrace
  | .acq =>
    let r := Acquire s.pool
    ⟨r.2, r.1 :: s.live, r.1 :: s.issued,
     s.fresh + (if s.pool.queue.isEmpty then 1 else 0)⟩
  | .rel i => ⟨Release i s.pool, s.live.erase i, s.issued, s.fresh⟩

def runPool (ops : List POp) : PoolTrace := ops.foldl stepPool initTrace

/-- The caller contract of `Release`: it is only ever called on an id the
caller currently holds. -/
def ValidOps : PoolTrace → List POp → Prop
  | _, [] => True
  | s, op :: rest =>
    (match op with | .acq => True | .rel i => i ∈ s.live) ∧ ValidOps (stepPool s op) rest

/-- The pool invariant: the counter mirrors the fresh-issue count modulo
2^32, every queued or live id was issued, issued ids are below the fresh
count, the queue and the live set are duplicate-free and disjoint. -/
structure PoolInv (s : PoolTrace) : Prop where
  cur : s.pool.curID = s.fresh % U32
  issued_lt : ∀ i ∈ s.issued, i < s.fresh
  queue_sub : ∀ i ∈ s.pool.queue, i ∈ s.issued
  live_sub : ∀ i ∈ s.live, i ∈ s.issued
  live_nodup : s.live.Nodup
  queue_nodup : s.pool.queue.Nodup
  disj : ∀ i ∈ s.pool.queue, i ∉ s.live

theorem initInv : PoolInv initTrace := by
  constructor <;> simp [initTrace, initPool]

theorem Acquire_cons (p : PoolState) (i : Nat) (rest : List Nat)
    (h : p.queue = i :: rest) : Acquire p = (i, ⟨rest, p.curID⟩) := by
  rcases p with ⟨q, c⟩
  cases h
  rfl

theorem Acquire_nil (p : PoolState) (h : p.queue = []) : Acquire p = newID p := by
  rcases p with ⟨q, c⟩
  cases h
  rfl

theorem newID_val (p : PoolState) (h : p.curID < U32) :
    newID p = (p.curID, ⟨p.queue, (p.curID + 1) % U32⟩) := by
  have hval : ((p.curID + 1) % U32 + U32 - 1) % U32 = p.curID := by
    unfold U32 at h ⊢
    omega
  show (((p.curID + 1) % U32 + U32 - 1) % U32, (⟨p.queue, (p.curID + 1) % U32⟩ : PoolState)) = _
  rw [hval]

theorem inv_step_rel (s : PoolTrace) (i : Nat) (hInv : PoolInv s)
    (hmem : i ∈ s.live) : PoolInv (stepPool s (.rel i)) := by
  have hiq : i ∉ s.pool.queue := fun hq => hInv.disj i hq hmem
  constructor
  · exact hInv.cur
  · exact hInv.issued_lt
  · intro j hj
    simp only [stepPool, Release, List.mem_append, List.mem_singleton] at hj
    rcases hj with hj | rfl
    · exact hInv.queue_sub j hj
    · exact hInv.live_sub j hmem
  · intro j hj
    exact hInv.live_sub j (List.mem_of_mem_erase hj)
  · exact hInv.live_nodup.erase i
  · simp only [stepPool, Release, List.nodup_append]
    exact ⟨hInv.queue_nodup, List.nodup_singleton i,
      fun j hj hj' => hiq (by simpa [List.mem_singleton.mp hj'] using hj)⟩
  · intro j hj
    simp only [stepPool, Release, List.mem_append, List.mem_singleton] at hj
    rcases hj with hj | rfl
    · exact fun hl => hInv.disj j hj (List.mem_of_mem_erase hl)
    · intro hl
      exact (hInv.live_nodup.mem_erase_iff.mp hl).1 rfl

theorem inv_step_acq_cons (s : PoolTrace) (i : Nat) (rest : List Nat)
    (hq : s.pool.queue = i :: rest) (hInv : PoolInv s) :
    PoolInv (stepPool s .acq) := by
  have hmemq : i ∈ s.pool.queue := by rw [hq]; exact List.mem_cons_self i rest
  have hacq : Acquire s.pool = (i, ⟨rest, s.pool.curID⟩) := Acquire_cons _ _ _ hq
  have hemp : s.pool.queue.isEmpty = false := by rw [hq]; rfl
  have hnodup : (i :: rest).Nodup := hq ▸ hInv.queue_nodup
  constructor
  · simpa [stepPool, hacq, hemp] using hInv.cur
  · intro j hj
    simp only [stepPool, hacq, hemp, List.mem_cons] at hj ⊢
    rcases hj with rfl | hj
    · simpa using hInv.issued_lt j (hInv.queue_sub j hmemq)
    · simpa using hInv.issued_lt j hj
  · intro j hj
    simp only [stepPool, hacq] at hj ⊢
    right
    exact hInv.queue_sub j (by rw [hq]; exact List.mem_cons_of_mem i hj)
  · intro j hj
    simp only [stepPool, hacq, List.mem_cons] at hj ⊢
    rcases hj with rfl | hj
    · left; rfl
    · right; exact hInv.live_sub j hj
  · simp only [stepPool, hacq, List.nodup_cons]
    exact ⟨hInv.disj i hmemq, hInv.live_nodup⟩
  · simp only [stepPool, hacq]
    exact (List.nodup_cons.mp hnodup).2
  · intro j hj
    simp only [stepPool, hacq] at hj ⊢
    rw [List.mem_cons]
    push_neg
    refine ⟨?_, hInv.disj j (by rw [hq]; exact List.mem_cons_of_mem i hj)⟩
    intro rfl_ji
    exact (List.nodup_cons.mp hnodup).1 (rfl_ji ▸ hj)

theorem inv_step_acq_nil (s : PoolTrace) (hq : s.pool.queue = [])
    (hfresh : s.fresh < U32) (hInv : PoolInv s) :
    PoolInv (stepPool s .acq) := by
  have hcur : s.pool.curID = s.fresh := by
    rw [hInv.cur, Nat.mod_eq_of_lt hfresh]
  have hcurlt : s.pool.curID < U32 := by rw [hcur]; exact hfresh
  have hacq : Acquire s.pool = (s.fresh, ⟨[], (s.fresh + 1) % U32⟩) := by
    rw [Acquire_nil _ hq, newID_val _ hcurlt, hcur, hq]
  have hemp : s.pool.queue.isEmpty = true := by rw [hq]; rfl
  have hstep : stepPool s .acq
      = ⟨⟨[], (s.fresh + 1) % U32⟩, s.fresh :: s.live, s.fresh :: s.issued, s.fresh + 1⟩ := by
    simp [stepPool, hacq, hemp]
  rw [hstep]
  constructor
  · rfl
  · intro j hj
    show j < s.fresh + 1
    rcases List.mem_cons.mp hj with rfl | hj
    · omega
    · have := hInv.issued_lt j hj
      omega
  · intro j hj
    simp at hj
  · intro j hj
    rcases List.mem_cons.mp hj with rfl | hj
    · exact List.mem_cons_self _ _
    · exact List.mem_cons_of_mem _ (hInv.live_sub j hj)
  · refine List.nodup_cons.mpr ⟨fun hl => ?_, hInv.live_nodup⟩
    exact absurd (hInv.issued_lt _ (hInv.live_sub _ hl)) (by omega)
  · simp
  · intro j hj
    simp at hj

theorem step_fresh_le (s : PoolTrace) (op : POp) : s.fresh ≤ (stepPool s op).fresh := by
  cases op with
  | acq => simp [stepPool]
  | rel i => simp [stepPool]

theorem fresh_mono (ops : List POp) : ∀ s : PoolTrace,
    s.fresh ≤ (ops.foldl stepPool s).fresh := by
  induction ops with
  | nil => intro s; simp
  | cons op rest ih =>
    intro s
    calc s.fresh ≤ (stepPool s op).fresh := step_fresh_le s op
      _ ≤ _ := ih (stepPool s op)

theorem validOps_append (l1 l2 : List POp) : ∀ s : PoolTrace,
    ValidOps s (l1 ++ l2) ↔ ValidOps s l1 ∧ ValidOps (l1.foldl stepPool s) l2 := by
  induction l1 with
  | nil => intro s; simp [ValidOps]
  | cons op rest ih =>
    intro s
    constructor
    · rintro ⟨h1, h2⟩
      have h3 := (ih (stepPool s op)).mp h2
      exact ⟨⟨h1, h3.1⟩, h3.2⟩
    · rintro ⟨⟨h1, h2⟩, h3⟩
      exact ⟨h1, (ih (stepPool s op)).mpr ⟨h2, h3⟩⟩

theorem inv_run (ops : List POp) : ∀ s : PoolTrace, PoolInv s → ValidOps s ops →
    (ops.foldl stepPool s).fresh ≤ U32 → PoolInv (ops.foldl stepPool s) := by
  induction ops with
  | nil => intro s hInv _ _; exact hInv
  | cons op rest ih =>
    intro s hInv hv hb
    simp only [List.foldl_cons] at hb ⊢
    refine ih (stepPool s op) ?_ hv.2 hb
    cases op with
    | rel i => exact inv_step_rel s i hInv hv.1
    | acq =>
      cases hq : s.pool.queue with
      | cons i rest' => exact inv_step_acq_cons s i rest' hq hInv
      | nil =>
        refine inv_step_acq_nil s hq ?_ hInv
        have h1 : (stepPool s .acq).fresh = s.fresh + 1 := by
          simp [stepPool, hq]
        have h2 : (stepPool s .acq).fresh ≤ (rest.foldl stepPool (stepPool s .acq)).fresh :=
          fresh_mono rest _
        omega

theorem validOps_replicate_acq (n : Nat) : ∀ s : PoolTrace,
    ValidOps s (List.replicate n POp.acq) := by
  induction n with
  | zero => intro s; trivial
  | succ m ih => intro s; exact ⟨trivial, ih _⟩

/-- Claim C4 (amended): along any operation sequence that respects the
Release contract and in which at most 2^32 fresh counter ids are issued,
no two simultaneously live holders hold the same id, and every `Acquire`
either returns the front of the reuse queue or — when the queue is empty —
a counter value never returned by any earlier `Acquire`. -/
theorem acquire_no_duplicate_live (ops : List POp)
    (hv : ValidOps initTrace ops) (hb : (runPool ops).fresh ≤ U32) :
    (runPool ops).live.Nodup
    ∧ ∀ ops1 ops2, ops = ops1 ++ POp.acq :: ops2 →
        (∃ rest, (runPool ops1).pool.queue = (Acquire (runPool ops1).pool).1 :: rest)
        ∨ ((runPool ops1).pool.queue = []
            ∧ (Acquire (runPool ops1).pool).1 ∉ (runPool ops1).issued) := by
  constructor
  · exact (inv_run ops initTrace initInv hv hb).live_nodup
  · intro ops1 ops2 heq
    subst heq
    have hv1 := ((validOps_append ops1 (POp.acq :: ops2) initTrace).mp hv).1
    have hsplit : runPool (ops1 ++ POp.acq :: ops2)
        = (POp.acq :: ops2).foldl stepPool (runPool ops1) := by
      unfold runPool
      rw [List.foldl_append]
    have hb1 : (runPool ops1).fresh ≤ U32 := by
      refine le_trans ?_ hb
      rw [hsplit]
      exact fresh_mono (POp.acq :: ops2) (runPool ops1)
    have hinv1 : PoolInv (runPool ops1) := inv_run ops1 initTrace initInv hv1 hb1
    cases hq : (runPool ops1).pool.queue with
    | cons i rest =>
      left
      exact ⟨rest, by rw [Acquire_cons (runPool ops1).pool i rest hq]⟩
    | nil =>
      right
      have hstepf : (stepPool (runPool ops1) .acq).fresh = (runPool ops1).fresh + 1 := by
        simp [stepPool, hq]
      have hmono2 : (stepPool (runPool ops1) .acq).fresh
          ≤ (runPool (ops1 ++ POp.acq :: ops2)).fresh := by
        rw [hsplit]
        exact fresh_mono ops2 (stepPool (runPool ops1) POp.acq)
      have hflt : (runPool ops1).fresh < U32 := by omega
      have hcur : (runPool ops1).pool.curID = (runPool ops1).fresh := by
        rw [hinv1.cur, Nat.mod_eq_of_lt hflt]
      have hacq : (Acquire (runPool ops1).pool).1 = (runPool ops1).fresh := by
        rw [Acquire_nil _ hq, newID_val _ (by rw [hcur]; exact hflt), hcur]
      refine ⟨rfl, ?_⟩
      rw [hacq]
      intro hmem
      exact absurd (hinv1.issued_lt _ hmem) (by omega)

/-- The ids issued by `n` consecutive fresh acquisitions, most recent
first: `(n-1) % 2^32, …, 1 % 2^32, 0 % 2^32`. -/
def descIds : Nat → List Nat
  | 0 => []
  | n + 1 => (n % U32) :: descIds n

theorem run_replicate_acq (n : Nat) :
    runPool (List.replicate n POp.acq) = ⟨⟨[], n % U32⟩, descIds n, descIds n, n⟩ := by
  induction n with
  | zero =>
    show initTrace = _
    unfold initTrace initPool descIds
    simp [Nat.zero_mod]
  | succ m ih =>
    have hrep : List.replicate (m + 1) POp.acq = List.replicate m POp.acq ++ [POp.acq] :=
      List.replicate_succ' ..
    rw [hrep]
    show List.foldl stepPool initTrace (List.replicate m POp.acq ++ [POp.acq]) = _
    rw [List.foldl_append]
    show stepPool (runPool (List.replicate m POp.acq)) POp.acq = _
    rw [ih]
    have h1 : Acquire (⟨[], m % U32⟩ : PoolState) = (m % U32, ⟨[], (m % U32 + 1) % U32⟩) := by
      rw [Acquire_nil _ rfl]
      exact newID_val _ (Nat.mod_lt _ (by unfold U32; omega))
    have h2 : (m % U32 + 1) % U32 = (m + 1) % U32 := by
      unfold U32
      omega
    simp [stepPool, h1, h2, descIds]

theorem acquire_no_duplicate_live_witness :
    (runPool (List.replicate 2 POp.acq)).live.Nodup := by
  refine (acquire_no_duplicate_live (List.replicate 2 POp.acq)
    (validOps_replicate_acq 2 initTrace) ?_).1
  rw [run_replicate_acq]
  show (2 : Nat) ≤ U32
  unfold U32
  omega

theorem zero_mem_descIds (n : Nat) (h : 0 < n) : 0 ∈ descIds n := by
  induction n with
  | zero => omega
  | succ m ih =>
    rcases Nat.eq_zero_or_pos m with h0 | hpos
    · subst h0
      simp [descIds]
    · exact List.mem_cons_of_mem _ (ih hpos)

theorem descIds_wrap_not_nodup : ¬ (descIds (U32 + 1)).Nodup := by
  intro hn
  have h0 : descIds (U32 + 1) = 0 :: descIds U32 := by
    show (U32 % U32) :: descIds U32 = _
    rw [Nat.mod_self]
  rw [h0] at hn
  exact (List.nodup_cons.mp hn).1 (zero_mem_descIds U32 (by unfold U32; omega))

/-- Claim C4, counterexample to the unconditional statement: the valid
sequence of 2^32 + 1 consecutive `Acquire`s (no `Release` at all, so the
Release contract holds trivially and the reuse queue stays empty) leaves
two simultaneously live holders with the same id — the uint32 counter
wraps and the last `Acquire` returns 0 again. -/
theorem acquire_duplicate_live_at_wraparound :
    ValidOps initTrace (List.replicate (U32 + 1) POp.acq)
    ∧ ¬ (runPool (List.replicate (U32 + 1) POp.acq)).live.Nodup := by
  refine ⟨validOps_replicate_acq _ _, ?_⟩
  rw [run_replicate_acq]
  exact descIds_wrap_not_nodup

/-- Claim C10: the fresh-id counter is uint32 with wraparound — after `n`
fresh acquisitions the next fresh id is `n % 2^32`; in particular the
2^32-th fresh acquisition returns the same id as the very first one, an id
that was already issued before. -/
theorem newID_wraps_mod_u32 :
    (∀ n, (Acquire (runPool (List.replicate n POp.acq)).pool).1 = n % U32)
    ∧ (Acquire (runPool (List.replicate U32 POp.acq)).pool).1
        = (Acquire (runPool (List.replicate 0 POp.acq)).pool).1
    ∧ (Acquire (runPool (List.replicate U32 POp.acq)).pool).1
        ∈ (runPool (List.replicate U32 POp.acq)).issued := by
  have key : ∀ n, (Acquire (runPool (List.replicate n POp.acq)).pool).1 = n % U32 := by
    intro n
    rw [run_replicate_acq]
    show (Acquire (⟨[], n % U32⟩ : PoolState)).1 = n % U32
    rw [Acquire_nil _ rfl, newID_val _ (Nat.mod_lt _ (by unfold U32; omega))]
  refine ⟨key, ?_, ?_⟩
  · rw [key, key]
    unfold U32
    omega
  · rw [key U32, Nat.mod_self, run_replicate_acq]
    show (0 : Nat) ∈ descIds U32
    exact zero_mem_descIds U32 (by unfold U32; omega)

end IdPool

namespace Gls

/-- Go map write `m[k] = v` on the association-list representation of a
map: the new binding, plus all old bindings for other keys. -/
def mapSet {K V : Type} [DecidableEq K] (m : List (K × V)) (k : K) (v : V) :
    List (K × V) :=
  (k, v) :: m.filter (fun p => decide (p.1 ≠ k))

/-- Go map delete `delete(m, k)`. -/
def mapDel {K V : Type} [DecidableEq K] (m : List (K × V)) (k : K) : List (K × V) :=
  m.filter (fun p => decide (p.1 ≠ k))

end Gls

namespace GlsLow

/-- Truncation to `uint32` (Go casts and arithmetic in context.go). -/
def u32 (n : Nat) : Nat := n % 4294967296

def initialMaxGoroutineCount : Nat := 1024

def extendUnit : Nat := 128

/-- The low-level global state: `globalMaps []context`, where `none` is
the nil zero value of a freshly grown cell and `some m` a slot installed
by `WrapWithGLS`.  `curMaxGoroutineCount` is kept equal to
`globalMaps.length` by `init` and `extend` in the source, so the model
carries the list only.  Keys are strings as in `Set`/`Get`. -/
structure GlsState (V : Type) where
  globalMaps : List (Option (List (String × V)))

/-- `init()`: `globalMaps = make([]context, 1024, 1024)` — 1024 nil cells. -/
def initState (V : Type) : GlsState V := ⟨List.replicate initialMaxGoroutineCount none⟩

/-- `extend(goID)`: under the write lock, when
`goID >= uint32(curMaxGoroutineCount)`, append
`unit := ((goID-uint32(cur))/extendUnit + 1) * extendUnit` nil cells and
add `unit` to the count.  The uint32 arithmetic is made explicit: the
subtraction is guarded by the comparison and the quotient is too small to
wrap, so only the final product needs a truncation. -/
def extend {V : Type} (goID : Nat) (g : GlsState V) : GlsState V :=
  if goID ≥ u32 g.globalMaps.length then
    ⟨g.globalMaps ++ List.replicate
      (u32 (((goID - u32 g.globalMaps.length) / extendUnit + 1) * extendUnit)) none⟩
  else g

/-- The state at the moment `f()` starts inside `WrapWithGLS(f)`: the
read-locked capacity check plus `extend` (which re-checks), then
`globalMaps[goID] = context{}` — a fresh empty map, discarding any residue
left by a previous holder of the reused id. -/
def wrapEnter {V : Type} (goID : Nat) (g : GlsState V) : GlsState V :=
  ⟨(extend goID g).globalMaps.set goID (some [])⟩

/-- Result of a low-level operation: a value, the NotEnabled error, or a
run-time panic (out-of-range index, or a write to a nil map). -/
inductive LowRes (α : Type) where
  | ok : α → LowRes α
  | notEnabled : LowRes α
  | panicked : LowRes α
  deriving DecidableEq

/-- `getGLS`: no goroutine id ⇒ the NotEnabled error; otherwise
`globalMaps[goID]`, which panics when the index is beyond the array. -/
def getGLS {V : Type} (gid? : Option Nat) (g : GlsState V) :
    LowRes (Option (List (String × V))) :=
  match gid? with
  | none => .notEnabled
  | some gid =>
    if gid < g.globalMaps.length then .ok (g.globalMaps.getD gid none) else .panicked

/-- `Set(key, value)`: `getGLS`, propagating its error, then
`glsMap[key] = value` — a panic when the cell still holds a nil map —
writing through the cell registered at the goroutine id.  (The `getGLS`
steps are inlined because the write-back needs the index.) -/
def Set {V : Type} (k : String) (v : V) (gid? : Option Nat) (g : GlsState V) :
    LowRes (GlsState V) :=
  match gid? with
  | none => .notEnabled
  | some gid =>
    if gid < g.globalMaps.length then
      match g.globalMaps.getD gid none with
      | none => .panicked
      | some m => .ok ⟨g.globalMaps.set gid (some (Gls.mapSet m k v))⟩
    else .panicked

/-- `Get(key)`: `getGLS`, propagating its error, then
`return glsMap[key], nil` — reading a nil map yields the zero value, and a
missing key yields the zero value with a nil error. -/
def Get {V : Type} (k : String) (gid? : Option Nat) (g : GlsState V) :
    LowRes (Option V) :=
  match getGLS gid? g with
  | .notEnabled => .notEnabled
  | .panicked => .panicked
  | .ok none => .ok none
  | .ok (some m) => .ok (Gls.lookupKV m k)

theorem getD_set_self {α : Type} (l : List α) (i : Nat) (a d : α)
    (h : i < l.length) : (l.set i a).getD i d = a := by
  induction l generalizing i with
  | nil => simp at h
  | cons x xs ih =>
    cases i with
    | zero => rfl
    | succ j => exact ih j (by simpa using h)

theorem extend_noop {V : Type} (g : GlsState V) (id : Nat)
    (h3 : g.globalMaps.length < 4294967296) (hlt : id < g.globalMaps.length) :
    extend id g = g := by
  have hu : u32 g.globalMaps.length = g.globalMaps.length := Nat.mod_eq_of_lt h3
  unfold extend
  rw [if_neg]
  rw [hu]
  omega

theorem extend_length {V : Type} (g : GlsState V) (id : Nat)
    (h2 : 128 ≤ g.globalMaps.length) (h3 : g.globalMaps.length < 4294967296)
    (h4 : id < 4294967296) (hge : g.globalMaps.length ≤ id) :
    (extend id g).globalMaps.length
      = g.globalMaps.length + ((id - g.globalMaps.length) / 128 + 1) * 128 := by
  have hu : u32 g.globalMaps.length = g.globalMaps.length := Nat.mod_eq_of_lt h3
  unfold extend
  rw [if_pos (by rw [hu]; exact hge)]
  show (g.globalMaps ++ List.replicate _ none).length = _
  rw [List.length_append, List.length_replicate, hu]
  unfold u32 extendUnit
  have hq := Nat.div_mul_le_self (id - g.globalMaps.length) 128
  omega

theorem lt_extend_length {V : Type} (g : GlsState V) (id : Nat)
    (h2 : 128 ≤ g.globalMaps.length) (h3 : g.globalMaps.length < 4294967296)
    (h4 : id < 4294967296) : id < (extend id g).globalMaps.length := by
  by_cases hge : g.globalMaps.length ≤ id
  · rw [extend_length g id h2 h3 h4 hge]
    have hdm := Nat.div_add_mod (id - g.globalMaps.length) 128
    have hml := Nat.mod_lt (id - g.globalMaps.length) (show 0 < 128 by omega)
    omega
  · rw [extend_noop g id h3 (by omega)]
    omega

theorem wrapEnter_inbounds {V : Type} (g : GlsState V) (gid : Nat)
    (h2 : 128 ≤ g.globalMaps.length) (h3 : g.globalMaps.length < 4294967296)
    (h4 : gid < 4294967296) : gid < (wrapEnter gid g).globalMaps.length := by
  show gid < ((extend gid g).globalMaps.set gid (some [])).length
  rw [List.length_set]
  exact lt_extend_length g gid h2 h3 h4

theorem wrapEnter_slot {V : Type} (g : GlsState V) (gid : Nat)
    (h2 : 128 ≤ g.globalMaps.length) (h3 : g.globalMaps.length < 4294967296)
    (h4 : gid < 4294967296) :
    (wrapEnter gid g).globalMaps.getD gid none = some [] := by
  show ((extend gid g).globalMaps.set gid (some [])).getD gid none = some []
  exact getD_set_self _ gid (some []) none (lt_extend_length g gid h2 h3 h4)

/-- Claim C7: for `id` at or beyond the current capacity, `extend` grows
`globalMaps` to the smallest multiple of the chunk size `extendUnit = 128`
strictly greater than `id` (given the invariant that the capacity is a
multiple of 128, as the initial 1024 is and every growth step keeps); for
`id` below the capacity, `extend` changes nothing. -/
theorem extend_grows_chunked {V : Type} (g : GlsState V) (id : Nat)
    (h1 : 128 ∣ g.globalMaps.length) (h2 : 128 ≤ g.globalMaps.length)
    (h3 : g.globalMaps.length < 4294967296) (h4 : id < 4294967296) :
    (g.globalMaps.length ≤ id →
      128 ∣ (extend id g).globalMaps.length
      ∧ id < (extend id g).globalMaps.length
      ∧ ∀ m, 128 ∣ m → id < m → (extend id g).globalMaps.length ≤ m)
    ∧ (id < g.globalMaps.length → extend id g = g) := by
  constructor
  · intro hge
    obtain ⟨a, ha⟩ := h1
    rw [extend_length g id h2 h3 h4 hge]
    have hdm := Nat.div_add_mod (id - g.globalMaps.length) 128
    have hml := Nat.mod_lt (id - g.globalMaps.length) (show 0 < 128 by omega)
    refine ⟨⟨a + ((id - g.globalMaps.length) / 128 + 1), by omega⟩, by omega, ?_⟩
    intro m hm hl
    obtain ⟨b, hb⟩ := hm
    omega
  · intro hlt
    exact extend_noop g id h3 hlt

theorem extend_grows_chunked_witness :
    (200 : Nat) < (extend 200 (⟨List.replicate 128 none⟩ : GlsState Nat)).globalMaps.length
    ∧ extend 100 (⟨List.replicate 128 none⟩ : GlsState Nat)
        = (⟨List.replicate 128 none⟩ : GlsState Nat) :=
  ⟨((extend_grows_chunked (⟨List.replicate 128 none⟩ : GlsState Nat) 200
      ⟨1, by decide⟩ (by decide) (by decide) (by decide)).1 (by decide)).2.1,
   (extend_grows_chunked (⟨List.replicate 128 none⟩ : GlsState Nat) 100
      ⟨1, by decide⟩ (by decide) (by decide) (by decide)).2 (by decide)⟩

/-- Claim C5: `Set` and `Get` return the NotEnabled error exactly when the
task has no goroutine id; and from a task whose identity and slot were
established by `WrapWithGLS` (the storage-using scope), both succeed with
a nil error. -/
theorem set_get_notEnabled_iff {V : Type} (g : GlsState V) (gid? : Option Nat)
    (k : String) (v : V) :
    ((Set k v gid? g = LowRes.notEnabled) ↔ gid? = none)
    ∧ ((Get k gid? g = LowRes.notEnabled) ↔ gid? = none)
    ∧ (∀ gid, gid? = some gid → gid < 4294967296 → 128 ≤ g.globalMaps.length →
        g.globalMaps.length < 4294967296 →
        (∃ g', Set k v gid? (wrapEnter gid g) = LowRes.ok g')
        ∧ (∃ w, Get k gid? (wrapEnter gid g) = LowRes.ok w)) := by
  refine ⟨?_, ?_, ?_⟩
  · constructor
    · intro h
      cases gid? with
      | none => rfl
      | some gid =>
        exfalso
        simp only [Set] at h
        by_cases hlt : gid < g.globalMaps.length
        · rw [if_pos hlt] at h
          cases hgd : g.globalMaps.getD gid none with
          | none => rw [hgd] at h; exact LowRes.noConfusion h
          | some m => rw [hgd] at h; exact LowRes.noConfusion h
        · rw [if_neg hlt] at h
          exact LowRes.noConfusion h
    · intro h
      subst h
      rfl
  · constructor
    · intro h
      cases gid? with
      | none => rfl
      | some gid =>
        exfalso
        simp only [Get, getGLS] at h
        by_cases hlt : gid < g.globalMaps.length
        · rw [if_pos hlt] at h
          cases hgd : g.globalMaps.getD gid none with
          | none => rw [hgd] at h; exact LowRes.noConfusion h
          | some m => rw [hgd] at h; exact LowRes.noConfusion h
        · rw [if_neg hlt] at h
          exact LowRes.noConfusion h
    · intro h
      subst h
      rfl
  · intro gid heq h4 h2 h3
    subst heq
    have hin := wrapEnter_inbounds g gid h2 h3 h4
    have hslot := wrapEnter_slot g gid h2 h3 h4
    constructor
    · refine ⟨⟨(wrapEnter gid g).globalMaps.set gid (some (Gls.mapSet [] k v))⟩, ?_⟩
      simp only [Set, if_pos hin, hslot]
    · refine ⟨none, ?_⟩
      simp only [Get, getGLS, if_pos hin, hslot]
      rfl

theorem set_get_notEnabled_iff_witness :
    (Set "a" (7 : Nat) none (initState Nat) = LowRes.notEnabled)
    ∧ (∃ g', Set "a" (7 : Nat) (some 5) (wrapEnter 5 (initState Nat)) = LowRes.ok g')
    ∧ (∃ w, Get "a" (some 5) (wrapEnter 5 (initState Nat)) = LowRes.ok w) :=
  ⟨(set_get_notEnabled_iff (initState Nat) none "a" 7).1.mpr rfl,
   ((set_get_notEnabled_iff (initState Nat) (some 5) "a" 7).2.2 5 rfl (by decide)
      (by decide) (by decide)).1,
   ((set_get_notEnabled_iff (initState Nat) (some 5) "a" 7).2.2 5 rfl (by decide)
      (by decide) (by decide)).2⟩

/-- Claim C6: both `GetValue` and the low-level `Get` signal the absence
of a key as a non-error: `GetValue` returns `(nil, found=false)` whether
the slot is missing or the key is unbound, and `Get` returns the nil zero
value together with a nil error (its signature carries no boolean) whether
the cell is a nil map or the key is unbound. -/
theorem absent_key_found_false_no_error {K V : Type} (s : Gls.MState K V)
    (gid : Nat) (st : Gls.Slot K V) (k : K) {V2 : Type} (g : GlsState V2)
    (ks : String) (m : List (String × V2)) (gid2 : Nat) :
    (s gid = none → Gls.GetValue s (some gid) k = (none, false))
    ∧ (s gid = some st → st k = none → Gls.GetValue s (some gid) k = (none, false))
    ∧ (gid2 < g.globalMaps.length → g.globalMaps.getD gid2 none = some m →
        Gls.lookupKV m ks = none → Get ks (some gid2) g = LowRes.ok none)
    ∧ (gid2 < g.globalMaps.length → g.globalMaps.getD gid2 none = none →
        Get ks (some gid2) g = LowRes.ok none) := by
  refine ⟨?_, ?_, ?_, ?_⟩
  · intro h
    simp [Gls.GetValue, h]
  · intro h hk
    simp [Gls.GetValue, h, hk]
  · intro hlt hgd hlk
    simp only [Get, getGLS, if_pos hlt, hgd, hlk]
  · intro hlt hgd
    simp only [Get, getGLS, if_pos hlt, hgd]

theorem absent_key_found_false_no_error_witness :
    (Gls.GetValue (fun _ => (none : Option (Gls.Slot Nat Nat))) (some 0) 5
      = (none, false))
    ∧ (Get "zz" (some 0) (⟨[some [("a", (1 : Nat))]]⟩ : GlsState Nat)
        = LowRes.ok none) :=
  ⟨(absent_key_found_false_no_error (fun _ => none) 0 (fun _ => none) 5
      (⟨[some [("a", (1 : Nat))]]⟩ : GlsState Nat) "zz" [("a", 1)] 0).1 rfl,
   (absent_key_found_false_no_error (fun _ => (none : Option (Gls.Slot Nat Nat)))
      0 (fun _ => none) 5 (⟨[some [("a", (1 : Nat))]]⟩ : GlsState Nat) "zz"
      [("a", 1)] 0).2.2.1 (by decide) (by decide) (by decide)⟩

/-- Claim C8: at the moment `f` begins inside `WrapWithGLS(f)` the task's
low-level slot is a fresh empty map — `Get` observes no residual value for
any key, whatever a previous holder of the same reused id had stored in
the state `g`. -/
theorem wrap_resets_slot {V : Type} (g : GlsState V) (gid : Nat) (k : String)
    (h2 : 128 ≤ g.globalMaps.length) (h3 : g.globalMaps.length < 4294967296)
    (h4 : gid < 4294967296) :
    Get k (some gid) (wrapEnter gid g) = LowRes.ok none := by
  have hin := wrapEnter_inbounds g gid h2 h3 h4
  have hslot := wrapEnter_slot g gid h2 h3 h4
  simp only [Get, getGLS, if_pos hin, hslot]
  rfl

theorem wrap_resets_slot_witness :
    Get "a" (some 5)
      (wrapEnter 5 (⟨(List.replicate 128 none).set 5 (some [("a", (3 : Nat))])⟩
        : GlsState Nat)) = LowRes.ok none :=
  wrap_resets_slot (⟨(List.replicate 128 none).set 5 (some [("a", (3 : Nat))])⟩
      : GlsState Nat) 5 "a" (by decide) (by decide) (by decide)

end GlsLow

namespace GlsHeap

/-- Manager state with Go map objects made explicit as heap references:
`heap r` is the current contents of map object `r`, `slotRef` is
`ContextManager.values` (gid ↦ registered map object), `nextRef` the
allocator for fresh map objects.  `captures` and `obs` are ghost fields:
each `values := mgr.getValues()` step performed by `Go` records the
returned reference together with a snapshot copy of its contents at that
moment (the copy exists only in the model, as the yardstick the snapshot
claim demands), and each observation records a `GetValue` result. -/
structure GHeap (K V : Type) where
  heap : Nat → List (K × V)
  slotRef : Nat → Option Nat
  nextRef : Nat
  captures : List (Option Nat × List (K × V))
  obs : List (Option V × Bool)

/-- `ContextManager.GetValue` in the heap model: resolve the registered
map object for the goroutine id, then look the key up in its current
contents. -/
def getValueH {K V : Type} [DecidableEq K] (gid : Nat) (g : GHeap K V) (k : K) :
    Option V × Bool :=
  match g.slotRef gid with
  | none => (none, false)
  | some r =>
    match Gls.lookupKV (g.heap r) k with
    | some v => (some v, true)
    | none => (none, false)

/-- Single-task programs for the heap model: `goCapture` is the
`values := mgr.getValues()` step performed by `Go` (plus the ghost
recording), `obsGet k` records `m.GetValue(k)` into the ghost
observation list. -/
inductive HProg (K V : Type) where
  | skip : HProg K V
  | seq : HProg K V → HProg K V → HProg K V
  | setValues : List (K × V) → HProg K V → HProg K V
  | goCapture : HProg K V
  | obsGet : K → HProg K V

/-- The write loop of `SetValues`:
`for key, new_val := range new_values { state[key] = new_val }`. -/
def writeAll {K V : Type} [DecidableEq K] (B : List (K × V)) (m : List (K × V)) :
    List (K × V) :=
  B.foldl (fun acc kv => Gls.mapSet acc kv.1 kv.2) m

/-- The deferred restore loop of `SetValues`: for each key of
`mutated_keys` (the keys of `B`), write back the old value that
`mutated_vals` recorded from the pre-write contents `st0`, or delete the
key when there was none. -/
def restoreAll {K V : Type} [DecidableEq K] (B : List (K × V)) (st0 m : List (K × V)) :
    List (K × V) :=
  (B.map Prod.fst).foldl
    (fun acc k =>
      match Gls.lookupKV st0 k with
      | some oldv => Gls.mapSet acc k oldv
      | none => Gls.mapDel acc k) m

/-- `SetValues` with the aliasing of Go maps kept visible: the local
`state` variable is the map object `r`; the write loop and the deferred
restore loop mutate that object in place, and `delete(m.values, gid)` in
the not-found branch only unregisters the object — its contents survive
through any alias (such as the `values` captured by `Go`). -/
def runH {K V : Type} [DecidableEq K] (gid : Nat) :
    HProg K V → GHeap K V → GHeap K V
  | .skip, g => g
  | .seq p q, g => runH gid q (runH gid p g)
  | .obsGet k, g => { g with obs := g.obs ++ [getValueH gid g k] }
  | .goCapture, g =>
    match g.slotRef gid with
    | some r => { g with captures := g.captures ++ [(some r, g.heap r)] }
    | none => { g with captures := g.captures ++ [(none, [])] }
  | .setValues B body, g =>
    if B.isEmpty then runH gid body g
    else
      match g.slotRef gid with
      | some r =>
        -- state, found := m.values[gid]  (found: `state` aliases object r)
        let st0 := g.heap r
        let g1 := { g with
          heap := fun r2 => if r2 = r then writeAll B st0 else g.heap r2 }
        let g2 := runH gid body g1
        -- deferred restore, in place through the alias
        { g2 with
          heap := fun r2 => if r2 = r then restoreAll B st0 (g2.heap r2) else g2.heap r2 }
      | none =>
        -- not found: allocate a fresh map object and register it
        let r := g.nextRef
        let g1 : GHeap K V :=
          { heap := fun r2 => if r2 = r then writeAll B [] else g.heap r2,
            slotRef := fun gid2 => if gid2 = gid then some r else g.slotRef gid2,
            nextRef := g.nextRef + 1,
            captures := g.captures,
            obs := g.obs }
        let g2 := runH gid body g1
        -- deferred: delete(m.values, gid) — unregister only, no content restore
        { g2 with slotRef := fun gid2 => if gid2 = gid then none else g2.slotRef gid2 }

/-- The spawning goroutine (id 0): an outer `SetValues` scope binding key
0 ↦ 10, an inner scope binding key 1 ↦ 11, and the capture performed by
`Go` inside the inner scope. -/
def c3Spawner : HProg Nat Nat :=
  HProg.setValues [(0, 10)] (HProg.setValues [(1, 11)] HProg.goCapture)

def c3Init : GHeap Nat Nat := ⟨fun _ => [], fun _ => none, 0, [], []⟩

/-- The global state after the spawning goroutine has run to completion
(both scopes exited); a legal schedule starts the spawned goroutine only
now. -/
def c3AfterSpawner : GHeap Nat Nat := runH 0 c3Spawner c3Init

/-- The capture `Go` made: the reference `getValues` returned, with the
ghost snapshot of its contents at capture time. -/
def c3Cap : Option Nat × List (Nat × Nat) := c3AfterSpawner.captures.headD (none, [])

/-- What the callback wrapper built by `Go` hands to `mgr.SetValues` when
the spawned goroutine eventually runs: the contents, at that time, of the
captured live map object — no copy was taken at capture time. -/
def c3SpawnBindings : List (Nat × Nat) :=
  match c3Cap.1 with
  | some r => c3AfterSpawner.heap r
  | none => []

/-- The spawned goroutine (fresh id 1) running the wrapped callback
`mgr.SetValues(values, f)` where `f` observes key 1. -/
def c3Spawned : GHeap Nat Nat :=
  runH 1 (HProg.setValues c3SpawnBindings (HProg.obsGet 1)) c3AfterSpawner

/-- Claim C3, failing execution: at the moment of the `Go` call the
spawning task's bindings held key 1 ↦ 11 (the point-in-time snapshot the
claim says the spawned task must observe), but the spawned task observes
key 1 as absent — `getValues` returns the live map object, `Go` keeps it
uncopied, and the spawner's scope exits mutate it in place (the inner
restore deletes key 1) before the spawned goroutine runs. -/
theorem go_snapshot_semantics_violated :
    Gls.lookupKV c3Cap.2 1 = some 11
    ∧ c3Cap.1 = some 0
    ∧ Gls.lookupKV c3SpawnBindings 1 = none
    ∧ c3Spawned.obs = [(none, false)] := by
  refine ⟨?_, ?_, ?_, ?_⟩ <;> rfl

end GlsHeap
